import Mathlib

/-!
Shallow embedding of `pkg/controllers/chi/chi.go` from the
clickhouse-operator repository: the reconcile engine (`syncItem`), the
per-kind idempotent create helpers (`createConfigMap`, `createService`,
`createStatefulSet`), the creation phase (`createControlledResources`),
the status updater (`updateChiStatus`), the worker dispatch
(`processNextWorkItem`) and the dependent-object event router
(`handleObject`).

Modelling conventions:
* The watch cache (listers) and the Store are finite association lists of
  `(namespace, name)` pairs, one pair of lists per dependent kind,
  gathered in `World`.  Lister `Get` reads the cache; Store `Create`
  mutates the store, failing with `alreadyExists` when the pair is
  already stored — mirroring that a reconciliation never observes its own
  write through the cache without a refresh.
* External collaborators that `chi.go` merely calls (the manifest
  generator `chopparser.CreateObjects`, the naming functions
  `CreateStatefulSetName` / `CreatePodHostname`, the metrics exporter,
  the CHI store update call, the CHI lister) are parameters collected in
  `Env`, since their internals are outside this file's source.
* Every function returns, besides its Go return value, the updated
  `World` and an instrumentation count of Store create calls issued, so
  that claims about "zero create calls" are directly expressible.
-/

set_option autoImplicit false

/-- Store/client errors distinguished by the error-handling taxonomy:
`apierrors.IsAlreadyExists`-style errors vs any other (transient) error. -/
inductive KErr
  | alreadyExists
  | transient
  deriving DecidableEq, Repr

/-- Result of a lister/store lookup `Get(namespace, name)`: the Go pair
`(res, err)` where the caller first checks `res != nil`, then
`apierrors.IsNotFound(err)`, then `err != nil`. -/
inductive Lk (α : Type)
  | found (a : α)
  | notFound
  | failed (e : KErr)
  deriving DecidableEq, Repr

/-- A ClickHouseInstallation object as `syncItem` consumes it: identity plus
`Status.ObjectPrefixes` (`nsp` is the object's Namespace). -/
structure Chi where
  nsp : String
  name : String
  statusObjectPrefixes : List String
  deriving DecidableEq, Repr

/-- The cluster state visible to the controller: per dependent kind, the
watch-cache contents (read by listers) and the Store contents (written by
the kube client's Create calls).  Entries are `(namespace, name)` pairs. -/
structure World where
  cacheCM : List (String × String)
  cacheSvc : List (String × String)
  cacheSS : List (String × String)
  storeCM : List (String × String)
  storeSvc : List (String × String)
  storeSS : List (String × String)
  deriving DecidableEq, Repr

/-- Lister `Get` over a watch cache: found iff the pair is cached
(in-memory listers fail only with NotFound). -/
def listerGet (cache : List (String × String)) (ns name : String) : Lk Unit :=
  if (ns, name) ∈ cache then Lk.found () else Lk.notFound

/-- Store `Create`: `AlreadyExists` when the pair is already stored,
otherwise the pair is added and the call succeeds. -/
def storeCreate (store : List (String × String)) (ns name : String) :
    Option KErr × List (String × String) :=
  if (ns, name) ∈ store then (some KErr.alreadyExists, store)
  else (none, (ns, name) :: store)

/-- The common body of `createConfigMap` / `createService` /
`createStatefulSet` (chi.go:313-329, 332-348, 351-367), over one kind's
cache and store: look the name up in the lister cache; if found return
nil without creating; if NotFound issue a Store create and return its
error (there is no IsAlreadyExists check on the create error); any other
lookup error is returned.  The `Nat` counts Store create calls issued. -/
def createOne (cache store : List (String × String)) (ns name : String) :
    Option KErr × List (String × String) × Nat :=
  match listerGet cache ns name with
  | Lk.found _ => (none, store, 0)
  | Lk.notFound =>
    match storeCreate store ns name with
    | (e, store2) => (e, store2, 1)
  | Lk.failed e => (some e, store, 0)

/-- `createConfigMap` (chi.go:313-329): idempotent create of a ConfigMap in
the CHI's namespace. -/
def createConfigMap (w : World) (ns name : String) : Option KErr × World × Nat :=
  match createOne w.cacheCM w.storeCM ns name with
  | (e, st, n) => (e, { w with storeCM := st }, n)

/-- `createService` (chi.go:332-348): idempotent create of a Service. -/
def createService (w : World) (ns name : String) : Option KErr × World × Nat :=
  match createOne w.cacheSvc w.storeSvc ns name with
  | (e, st, n) => (e, { w with storeSvc := st }, n)

/-- `createStatefulSet` (chi.go:351-367): idempotent create of a
StatefulSet. -/
def createStatefulSet (w : World) (ns name : String) : Option KErr × World × Nat :=
  match createOne w.cacheSS w.storeSS ns name with
  | (e, st, n) => (e, { w with storeSS := st }, n)

/-- One inner loop of `createControlledResources` (chi.go:287-308) for one
kind: create each listed object in order, aborting on the first error.
The cache is fixed during the pass; the store threads through. -/
def createMany (cache store : List (String × String)) (ns : String) :
    List String → Option KErr × List (String × String) × Nat
  | [] => (none, store, 0)
  | o :: rest =>
    match createOne cache store ns o with
    | (some e, st2, n) => (some e, st2, n)
    | (none, st2, n) =>
      match createMany cache st2 ns rest with
      | (e2, st3, m) => (e2, st3, n + m)

/-- One element of the heterogeneous slice returned by
`chopparser.CreateObjects`: the type-switch in `createControlledResources`
dispatches on `ConfigMapList`, `ServiceList` and `StatefulSetList`. -/
inductive ObjList
  | configMapList (objs : List String)
  | serviceList (objs : List String)
  | statefulSetList (objs : List String)
  deriving DecidableEq, Repr

/-- Dispatch of the type-switch (chi.go:288-307) for one generated list. -/
def runObjList (w : World) (ns : String) : ObjList → Option KErr × World × Nat
  | ObjList.configMapList objs =>
    match createMany w.cacheCM w.storeCM ns objs with
    | (e, st, n) => (e, { w with storeCM := st }, n)
  | ObjList.serviceList objs =>
    match createMany w.cacheSvc w.storeSvc ns objs with
    | (e, st, n) => (e, { w with storeSvc := st }, n)
  | ObjList.statefulSetList objs =>
    match createMany w.cacheSS w.storeSS ns objs with
    | (e, st, n) => (e, { w with storeSS := st }, n)

/-- The outer loop of `createControlledResources` (chi.go:287-308) over the
generated object lists, aborting on the first error. -/
def runObjLists (w : World) (ns : String) : List ObjList → Option KErr × World × Nat
  | [] => (none, w, 0)
  | l :: rest =>
    match runObjList w ns l with
    | (some e, w2, n) => (some e, w2, n)
    | (none, w2, n) =>
      match runObjLists w2 ns rest with
      | (e2, w3, m) => (e2, w3, n + m)

/-- `createControlledResources` (chi.go:284-310): runs the generated object
lists through the per-kind create helpers and, on success, returns the
generator's prefix list unchanged; on failure returns the error.
`chiObjects` and `prefixes` are the two results of
`chopparser.CreateObjects(chiCopy)`, supplied by the environment. -/
def createControlledResources (w : World) (chi : Chi) (chiObjects : List ObjList)
    (prefixes : List String) : Except KErr (List String) × World × Nat :=
  match runObjLists w chi.nsp chiObjects with
  | (some e, w2, n) => (Except.error e, w2, n)
  | (none, w2, n) => (Except.ok prefixes, w2, n)

/-- `updateChiStatus` (chi.go:370-378): deep-copies the CHI, replaces its
whole status with one holding `objectPrefixes`, and issues the store
update call, returning its error and the written copy. -/
def updateChiStatus (updateCall : Chi → Option KErr) (chi : Chi)
    (objectPrefixes : List String) : Option KErr × Chi :=
  let chiCopy : Chi := { chi with statusObjectPrefixes := objectPrefixes }
  (updateCall chiCopy, chiCopy)

/-- External collaborators of `syncItem` and `handleObject`:
CHI lister lookup, manifest generator output, the pure naming functions
from `chopparser`, the metrics exporter's membership test, and the CHI
status update call. -/
structure Env where
  chopGet : String → String → Lk Chi
  gen : Chi → List ObjList × List String
  ssNameOf : String → String
  podHostname : String → String → String
  cvExist : String → List String → Bool
  updateCall : Chi → Option KErr

/-- Observable side effects of one `syncItem` run: number of Store create
calls, the status list written by `updateChiStatus` (if invoked), and the
hostname lists handed to the metrics exporter's `ControlledValuesExist`
and `UpdateControlledState`. -/
structure SyncEffects where
  creates : Nat
  statusUpdate : Option (List String)
  checkedHostnames : Option (String × List String)
  pushedHostnames : Option (String × List String)
  deriving DecidableEq, Repr

/-- The effect record of a pass that did none of the above. -/
def noEffects : SyncEffects :=
  { creates := 0, statusUpdate := none, checkedHostnames := none, pushedHostnames := none }

/-- `strings.Split` on the slash separator, over the character list:
every slash starts a new field, empty fields are kept. -/
def splitSlash : List Char → List (List Char)
  | [] => [[]]
  | c :: cs =>
    let r := splitSlash cs
    if c = '/' then [] :: r
    else
      match r with
      | [] => [[c]]
      | g :: gs => (c :: g) :: gs

/-- `cache.SplitMetaNamespaceKey`: a key with no slash is `("", key)`, one
slash splits into `(namespace, name)`, anything else is malformed. -/
def splitMetaNamespaceKey (key : String) : Option (String × String) :=
  match (splitSlash key.toList).map (fun g => String.mk g) with
  | [name] => some ("", name)
  | [ns, name] => some (ns, name)
  | _ => none

/-- `syncItem` (chi.go:219-281): split the key (malformed keys are logged
and dropped with nil); look the CHI up in the cache (NotFound is benign
nil, other errors are returned); with empty `status.objectPrefixes` run
the creation phase followed by `updateChiStatus`, returning the first
error; with non-empty status run the verification phase: for each prefix
derive the StatefulSet name, build the hostname slice (`make([]string,
prefixesNum)` leaves "" where the lookup fails), and reconcile the
metrics exporter state, always returning nil. -/
def syncItem (env : Env) (w : World) (key : String) :
    Option KErr × World × SyncEffects :=
  match splitMetaNamespaceKey key with
  | none => (none, w, noEffects)
  | some (ns, name) =>
    match env.chopGet ns name with
    | Lk.notFound => (none, w, noEffects)
    | Lk.failed e => (some e, w, noEffects)
    | Lk.found chi =>
      if chi.statusObjectPrefixes.isEmpty then
        match env.gen chi with
        | (chiObjects, genPrefixes) =>
          match createControlledResources w chi chiObjects genPrefixes with
          | (Except.error e, w2, n) =>
            (some e, w2, { noEffects with creates := n })
          | (Except.ok prefixes, w2, n) =>
            match updateChiStatus env.updateCall chi prefixes with
            | (ue, chiCopy) =>
              (ue, w2,
                { noEffects with
                  creates := n,
                  statusUpdate := some chiCopy.statusObjectPrefixes })
      else
        let chHostnames := chi.statusObjectPrefixes.map (fun pfx =>
          if (chi.nsp, env.ssNameOf pfx) ∈ w.cacheSS then
            env.podHostname chi.nsp pfx
          else "")
        let pushed :=
          if env.cvExist chi.name chHostnames then none
          else some (chi.name, chHostnames)
        (none, w,
          { creates := 0, statusUpdate := none,
            checkedHostnames := some (chi.name, chHostnames),
            pushedHostnames := pushed })

/-- A dequeued work item: the Go code type-asserts `item.(string)`. -/
inductive QItem
  | strKey (s : String)
  | nonString
  deriving DecidableEq, Repr

/-- Workqueue operations a processing pass can perform on the item. -/
inductive QOp
  | done
  | forget
  | addRateLimited
  deriving DecidableEq, Repr

/-- `processNextWorkItem` (chi.go:183-216), one dequeued item: non-string
items are Forgotten and dropped with nil; a failing `syncItem` makes the
inner closure return the error (with `Done` from the defer and nothing
else — in particular no `AddRateLimited`); a successful `syncItem` is
followed by `Forget`.  Returns the inner closure's error and the queue
operations performed, in execution order. -/
def processNextWorkItem (syncRes : String → Option KErr) (item : QItem) :
    Option KErr × List QOp :=
  match item with
  | QItem.nonString => (none, [QOp.forget, QOp.done])
  | QItem.strKey s =>
    match syncRes s with
    | some e => (some e, [QOp.done])
    | none => (none, [QOp.forget, QOp.done])

/-- `meta.OwnerReference` as `handleObject` consumes it: kind, owner name
and the controller flag. -/
structure OwnerReference where
  kind : String
  name : String
  controller : Bool
  deriving DecidableEq, Repr

/-- A dependent object as `meta.Object`: namespace (`nsp`), name and its
owner references. -/
structure MetaObject where
  nsp : String
  name : String
  ownerReferences : List OwnerReference
  deriving DecidableEq, Repr

/-- `meta.GetControllerOf`: the first owner reference whose controller
flag is set, if any. -/
def getControllerOf (o : MetaObject) : Option OwnerReference :=
  o.ownerReferences.find? (fun r => r.controller)

/-- `chop.ClickHouseInstallationCRDResourceKind`, the expected owner kind
(declared in pkg/apis outside this file; its concrete value is immaterial
to the routing logic). -/
def ClickHouseInstallationCRDResourceKind : String := "ClickHouseInstallation"

/-- `cache.MetaNamespaceKeyFunc`: the `<namespace>/<name>` key, just the
name for cluster-scoped objects. -/
def metaNamespaceKeyFunc (ns name : String) : String :=
  if ns = "" then name else ns ++ "/" ++ name

/-- `enqueueObject` (chi.go:381-391): key the object and `AddRateLimited`
it; returns the enqueued keys. -/
def enqueueObject (chi : Chi) : List String :=
  [metaNamespaceKeyFunc chi.nsp chi.name]

/-- An event payload as `handleObject` receives it: a decodable object, a
`cache.DeletedFinalStateUnknown` tombstone (whose embedded object may or
may not decode), or something else entirely. -/
inductive EventObj
  | metaObj (o : MetaObject)
  | tombstone (inner : Option MetaObject)
  | undecodable
  deriving DecidableEq, Repr

/-- `handleObject` (chi.go:394-435): decode the payload (directly or
through a tombstone); take `GetControllerOf`; bail out with no enqueue if
there is no controller reference, if its kind is not the CHI kind, or if
the owner lookup fails; otherwise enqueue the owning CHI's key.  Returns
the list of enqueued keys. -/
def handleObject (chopGet : String → String → Lk Chi) (ev : EventObj) :
    List String :=
  let objOpt : Option MetaObject :=
    match ev with
    | EventObj.metaObj o => some o
    | EventObj.tombstone (some o) => some o
    | EventObj.tombstone none => none
    | EventObj.undecodable => none
  match objOpt with
  | none => []
  | some object =>
    match getControllerOf object with
    | none => []
    | some ownerRef =>
      if ownerRef.kind ≠ ClickHouseInstallationCRDResourceKind then []
      else
        match chopGet object.nsp ownerRef.name with
        | Lk.found chi => enqueueObject chi
        | Lk.notFound => []
        | Lk.failed _ => []

/-- Cache refresh between two sequential reconciliation passes: the watch
cache catches up with the Store, reflecting the first pass's writes. -/
def refreshCaches (w : World) : World :=
  { w with cacheCM := w.storeCM, cacheSvc := w.storeSvc, cacheSS := w.storeSS }

/-- The ConfigMap names in a generated object-list sequence, in order. -/
def cmNames : List ObjList → List String
  | [] => []
  | ObjList.configMapList objs :: rest => objs ++ cmNames rest
  | ObjList.serviceList _ :: rest => cmNames rest
  | ObjList.statefulSetList _ :: rest => cmNames rest

/-- The Service names in a generated object-list sequence, in order. -/
def svcNames : List ObjList → List String
  | [] => []
  | ObjList.configMapList _ :: rest => svcNames rest
  | ObjList.serviceList objs :: rest => objs ++ svcNames rest
  | ObjList.statefulSetList _ :: rest => svcNames rest

/-- The StatefulSet names in a generated object-list sequence, in order. -/
def ssNames : List ObjList → List String
  | [] => []
  | ObjList.configMapList _ :: rest => ssNames rest
  | ObjList.serviceList _ :: rest => ssNames rest
  | ObjList.statefulSetList objs :: rest => objs ++ ssNames rest

/-! ### Concrete instances used to instantiate the theorems -/

/-- A world with empty caches and stores. -/
def emptyWorld : World := ⟨[], [], [], [], [], []⟩

/-- A concrete manifest-generator output: two ConfigMaps, one Service and
two StatefulSets. -/
def lsExample : List ObjList :=
  [ObjList.configMapList ["cm1", "cm2"], ObjList.serviceList ["svc1"],
   ObjList.statefulSetList ["ss1", "ss2"]]

/-- A concrete CHI with empty status (creation phase applies). -/
def chiEmptyStatus : Chi := ⟨"ns1", "demo", []⟩

/-- A concrete CHI with non-empty status (verification phase applies). -/
def chiWithStatus : Chi := ⟨"ns1", "demo", ["demo-0", "demo-1"]⟩

/-- A concrete environment around `chiEmptyStatus` and `lsExample`. -/
def envExample : Env :=
  { chopGet := fun _ _ => Lk.found chiEmptyStatus
  , gen := fun _ => (lsExample, ["demo-0", "demo-1"])
  , ssNameOf := fun pfx => pfx ++ "-ss"
  , podHostname := fun ns pfx => pfx ++ "." ++ ns
  , cvExist := fun _ _ => false
  , updateCall := fun _ => none }

/-- `envExample` with the CHI lister returning the non-empty-status CHI. -/
def envVerify : Env :=
  { envExample with chopGet := fun _ _ => Lk.found chiWithStatus }

/-- `envExample` with the CHI lister reporting NotFound. -/
def envNotFound : Env :=
  { envExample with chopGet := fun _ _ => Lk.notFound }

/-- `envExample` with the CHI lister failing with a transient error. -/
def envFailed : Env :=
  { envExample with chopGet := fun _ _ => Lk.failed KErr.transient }

/-- A world where "cm1" and "ss1" are already stored but not yet visible
in the watch cache: the already-exists race window. -/
def raceWorld : World := ⟨[], [], [], [("ns1", "cm1")], [], [("ns1", "ss1")]⟩

/-- A world where only the first recorded prefix's StatefulSet exists. -/
def wVerify : World := ⟨[], [], [("ns1", "demo-0-ss")], [], [], []⟩

/-- A dependent object whose only owner reference is not a controller
reference. -/
def objNoOwner : MetaObject :=
  ⟨"ns1", "pod-0", [⟨"ClickHouseInstallation", "demo", false⟩]⟩

/-- A dependent object with a controller owner reference of a foreign
kind. -/
def objWrongKind : MetaObject :=
  ⟨"ns1", "pod-0", [⟨"Deployment", "demo", true⟩]⟩

/-- A dependent object with a valid CHI controller owner reference. -/
def objOwned : MetaObject :=
  ⟨"ns1", "ss1", [⟨"ClickHouseInstallation", "demo", true⟩]⟩

/-! ### Lemmas about the idempotent-create step and one-kind passes -/

theorem createMany_cons (cache store : List (String × String)) (ns a : String)
    (rest : List String) :
    createMany cache store ns (a :: rest) =
      match createOne cache store ns a with
      | (some e, st2, n) => (some e, st2, n)
      | (none, st2, n) =>
        match createMany cache st2 ns rest with
        | (e2, st3, m) => (e2, st3, n + m) := rfl

theorem createOne_of_mem_cache {cache store : List (String × String)} {ns name : String}
    (h : (ns, name) ∈ cache) : createOne cache store ns name = (none, store, 0) := by
  simp [createOne, listerGet, h]

theorem createOne_store_mono {cache store : List (String × String)} {ns name : String}
    {x : String × String} (hx : x ∈ store) :
    x ∈ (createOne cache store ns name).2.1 := by
  by_cases hc : (ns, name) ∈ cache
  · simp [createOne, listerGet, storeCreate, hc, hx]
  · by_cases hs : (ns, name) ∈ store
    · simp [createOne, listerGet, storeCreate, hc, hs, hx]
    · simp [createOne, listerGet, storeCreate, hc, hs, hx]

theorem createOne_nodup {cache store : List (String × String)} {ns name : String}
    (h : store.Nodup) : (createOne cache store ns name).2.1.Nodup := by
  by_cases hc : (ns, name) ∈ cache
  · simpa [createOne, listerGet, storeCreate, hc] using h
  · by_cases hs : (ns, name) ∈ store
    · simpa [createOne, listerGet, storeCreate, hc, hs] using h
    · simp [createOne, listerGet, storeCreate, hc, hs, List.nodup_cons, h]

theorem createOne_none_mem {cache store : List (String × String)} {ns name : String}
    (h : (createOne cache store ns name).1 = none) :
    (ns, name) ∈ cache ∨ (ns, name) ∈ (createOne cache store ns name).2.1 := by
  by_cases hc : (ns, name) ∈ cache
  · exact Or.inl hc
  · by_cases hs : (ns, name) ∈ store
    · simp [createOne, listerGet, storeCreate, hc, hs] at h
    · simp [createOne, listerGet, storeCreate, hc, hs]

theorem createMany_store_mono {cache store : List (String × String)} {ns : String}
    {objs : List String} {x : String × String} (hx : x ∈ store) :
    x ∈ (createMany cache store ns objs).2.1 := by
  induction objs generalizing store with
  | nil => simpa [createMany] using hx
  | cons o rest ih =>
    rw [createMany_cons]
    rcases h1 : createOne cache store ns o with ⟨e1, st2, n⟩
    have hx2 : x ∈ st2 := by
      have := @createOne_store_mono cache store ns o x hx
      rwa [h1] at this
    cases e1 with
    | some e => exact hx2
    | none =>
      dsimp only
      rcases h2 : createMany cache st2 ns rest with ⟨e2, st3, m⟩
      dsimp only
      have := ih hx2
      rwa [h2] at this

theorem createMany_nodup {cache store : List (String × String)} {ns : String}
    {objs : List String} (h : store.Nodup) :
    (createMany cache store ns objs).2.1.Nodup := by
  induction objs generalizing store with
  | nil => simpa [createMany] using h
  | cons o rest ih =>
    rw [createMany_cons]
    rcases h1 : createOne cache store ns o with ⟨e1, st2, n⟩
    have hst2 : st2.Nodup := by
      have := @createOne_nodup cache store ns o h
      rwa [h1] at this
    cases e1 with
    | some e => exact hst2
    | none =>
      dsimp only
      rcases h2 : createMany cache st2 ns rest with ⟨e2, st3, m⟩
      dsimp only
      have := ih hst2
      rwa [h2] at this

theorem createMany_none_mem {cache store : List (String × String)} {ns : String}
    {objs : List String} {o : String}
    (h : (createMany cache store ns objs).1 = none) (ho : o ∈ objs) :
    (ns, o) ∈ cache ∨ (ns, o) ∈ (createMany cache store ns objs).2.1 := by
  induction objs generalizing store with
  | nil => cases ho
  | cons a rest ih =>
    rw [createMany_cons] at h ⊢
    rcases h1 : createOne cache store ns a with ⟨e1, st2, n⟩
    rw [h1] at h
    cases e1 with
    | some e => simp at h
    | none =>
      dsimp only at h ⊢
      rcases List.mem_cons.mp ho with rfl | hrest
      · rcases @createOne_none_mem cache store ns o (by rw [h1]) with hc | hs
        · exact Or.inl hc
        · right
          rw [h1] at hs
          exact createMany_store_mono hs
      · exact ih h hrest

theorem createMany_all_cached {cache store : List (String × String)} {ns : String}
    {objs : List String} (h : ∀ o ∈ objs, (ns, o) ∈ cache) :
    createMany cache store ns objs = (none, store, 0) := by
  induction objs with
  | nil => rfl
  | cons a rest ih =>
    rw [createMany_cons, createOne_of_mem_cache (h a (List.mem_cons_self a rest))]
    dsimp only
    rw [ih (fun o ho => h o (List.mem_cons_of_mem a ho))]
    simp

theorem runObjLists_cons (w : World) (ns : String) (l : ObjList) (rest : List ObjList) :
    runObjLists w ns (l :: rest) =
      match runObjList w ns l with
      | (some e, w2, n) => (some e, w2, n)
      | (none, w2, n) =>
        match runObjLists w2 ns rest with
        | (e2, w3, m) => (e2, w3, n + m) := rfl

theorem runObjList_cm (w : World) (ns : String) (objs : List String) :
    runObjList w ns (ObjList.configMapList objs) =
      match createMany w.cacheCM w.storeCM ns objs with
      | (e, st, n) => (e, { w with storeCM := st }, n) := rfl

theorem runObjList_svc (w : World) (ns : String) (objs : List String) :
    runObjList w ns (ObjList.serviceList objs) =
      match createMany w.cacheSvc w.storeSvc ns objs with
      | (e, st, n) => (e, { w with storeSvc := st }, n) := rfl

theorem runObjList_ss (w : World) (ns : String) (objs : List String) :
    runObjList w ns (ObjList.statefulSetList objs) =
      match createMany w.cacheSS w.storeSS ns objs with
      | (e, st, n) => (e, { w with storeSS := st }, n) := rfl

theorem createMany_append_err {cache store : List (String × String)} {ns : String}
    {xs ys : List String} {e : KErr}
    (h : (createMany cache store ns xs).1 = some e) :
    createMany cache store ns (xs ++ ys) = createMany cache store ns xs := by
  induction xs generalizing store with
  | nil => simp [createMany] at h
  | cons a rest ih =>
    rw [List.cons_append, createMany_cons, createMany_cons]
    rw [createMany_cons] at h
    rcases h1 : createOne cache store ns a with ⟨e1, st2, n⟩
    rw [h1] at h
    cases e1 with
    | some e1 => rfl
    | none =>
      dsimp only at h ⊢
      rcases h2 : createMany cache st2 ns rest with ⟨e2, st3, m⟩
      rw [h2] at h
      rw [ih (by rw [h2]; exact h), h2]

/-! ### Lemmas about the full creation phase -/

theorem runObjLists_cache_eq (w : World) (ns : String) (ls : List ObjList) :
    (runObjLists w ns ls).2.1.cacheCM = w.cacheCM ∧
    (runObjLists w ns ls).2.1.cacheSvc = w.cacheSvc ∧
    (runObjLists w ns ls).2.1.cacheSS = w.cacheSS := by
  induction ls generalizing w with
  | nil => exact ⟨rfl, rfl, rfl⟩
  | cons l rest ih =>
    rw [runObjLists_cons]
    cases l with
    | configMapList objs =>
      rw [runObjList_cm]
      rcases h1 : createMany w.cacheCM w.storeCM ns objs with ⟨e, st, n⟩
      cases e with
      | some e => exact ⟨rfl, rfl, rfl⟩
      | none =>
        dsimp only
        rcases h2 : runObjLists { w with storeCM := st } ns rest with ⟨e2, w3, m⟩
        dsimp only
        have := ih (w := { w with storeCM := st })
        rw [h2] at this
        exact this
    | serviceList objs =>
      rw [runObjList_svc]
      rcases h1 : createMany w.cacheSvc w.storeSvc ns objs with ⟨e, st, n⟩
      cases e with
      | some e => exact ⟨rfl, rfl, rfl⟩
      | none =>
        dsimp only
        rcases h2 : runObjLists { w with storeSvc := st } ns rest with ⟨e2, w3, m⟩
        dsimp only
        have := ih (w := { w with storeSvc := st })
        rw [h2] at this
        exact this
    | statefulSetList objs =>
      rw [runObjList_ss]
      rcases h1 : createMany w.cacheSS w.storeSS ns objs with ⟨e, st, n⟩
      cases e with
      | some e => exact ⟨rfl, rfl, rfl⟩
      | none =>
        dsimp only
        rcases h2 : runObjLists { w with storeSS := st } ns rest with ⟨e2, w3, m⟩
        dsimp only
        have := ih (w := { w with storeSS := st })
        rw [h2] at this
        exact this

theorem runObjLists_store_mono (w : World) (ns : String) (ls : List ObjList) :
    (∀ x ∈ w.storeCM, x ∈ (runObjLists w ns ls).2.1.storeCM) ∧
    (∀ x ∈ w.storeSvc, x ∈ (runObjLists w ns ls).2.1.storeSvc) ∧
    (∀ x ∈ w.storeSS, x ∈ (runObjLists w ns ls).2.1.storeSS) := by
  induction ls generalizing w with
  | nil => exact ⟨fun _ hx => hx, fun _ hx => hx, fun _ hx => hx⟩
  | cons l rest ih =>
    rw [runObjLists_cons]
    cases l with
    | configMapList objs =>
      rw [runObjList_cm]
      rcases h1 : createMany w.cacheCM w.storeCM ns objs with ⟨e, st, n⟩
      have hst : ∀ x ∈ w.storeCM, x ∈ st := by
        intro x hx
        have := @createMany_store_mono w.cacheCM w.storeCM ns objs x hx
        rwa [h1] at this
      cases e with
      | some e => exact ⟨hst, fun _ hx => hx, fun _ hx => hx⟩
      | none =>
        dsimp only
        rcases h2 : runObjLists { w with storeCM := st } ns rest with ⟨e2, w3, m⟩
        dsimp only
        have := ih (w := { w with storeCM := st })
        rw [h2] at this
        exact ⟨fun x hx => this.1 x (hst x hx), this.2.1, this.2.2⟩
    | serviceList objs =>
      rw [runObjList_svc]
      rcases h1 : createMany w.cacheSvc w.storeSvc ns objs with ⟨e, st, n⟩
      have hst : ∀ x ∈ w.storeSvc, x ∈ st := by
        intro x hx
        have := @createMany_store_mono w.cacheSvc w.storeSvc ns objs x hx
        rwa [h1] at this
      cases e with
      | some e => exact ⟨fun _ hx => hx, hst, fun _ hx => hx⟩
      | none =>
        dsimp only
        rcases h2 : runObjLists { w with storeSvc := st } ns rest with ⟨e2, w3, m⟩
        dsimp only
        have := ih (w := { w with storeSvc := st })
        rw [h2] at this
        exact ⟨this.1, fun x hx => this.2.1 x (hst x hx), this.2.2⟩
    | statefulSetList objs =>
      rw [runObjList_ss]
      rcases h1 : createMany w.cacheSS w.storeSS ns objs with ⟨e, st, n⟩
      have hst : ∀ x ∈ w.storeSS, x ∈ st := by
        intro x hx
        have := @createMany_store_mono w.cacheSS w.storeSS ns objs x hx
        rwa [h1] at this
      cases e with
      | some e => exact ⟨fun _ hx => hx, fun _ hx => hx, hst⟩
      | none =>
        dsimp only
        rcases h2 : runObjLists { w with storeSS := st } ns rest with ⟨e2, w3, m⟩
        dsimp only
        have := ih (w := { w with storeSS := st })
        rw [h2] at this
        exact ⟨this.1, this.2.1, fun x hx => this.2.2 x (hst x hx)⟩

theorem runObjLists_nodup (w : World) (ns : String) (ls : List ObjList)
    (hcm : w.storeCM.Nodup) (hsvc : w.storeSvc.Nodup) (hss : w.storeSS.Nodup) :
    (runObjLists w ns ls).2.1.storeCM.Nodup ∧
    (runObjLists w ns ls).2.1.storeSvc.Nodup ∧
    (runObjLists w ns ls).2.1.storeSS.Nodup := by
  induction ls generalizing w with
  | nil => exact ⟨hcm, hsvc, hss⟩
  | cons l rest ih =>
    rw [runObjLists_cons]
    cases l with
    | configMapList objs =>
      rw [runObjList_cm]
      rcases h1 : createMany w.cacheCM w.storeCM ns objs with ⟨e, st, n⟩
      have hst : st.Nodup := by
        have := @createMany_nodup w.cacheCM w.storeCM ns objs hcm
        rwa [h1] at this
      cases e with
      | some e => exact ⟨hst, hsvc, hss⟩
      | none =>
        dsimp only
        rcases h2 : runObjLists { w with storeCM := st } ns rest with ⟨e2, w3, m⟩
        dsimp only
        have := ih (w := { w with storeCM := st }) hst hsvc hss
        rw [h2] at this
        exact this
    | serviceList objs =>
      rw [runObjList_svc]
      rcases h1 : createMany w.cacheSvc w.storeSvc ns objs with ⟨e, st, n⟩
      have hst : st.Nodup := by
        have := @createMany_nodup w.cacheSvc w.storeSvc ns objs hsvc
        rwa [h1] at this
      cases e with
      | some e => exact ⟨hcm, hst, hss⟩
      | none =>
        dsimp only
        rcases h2 : runObjLists { w with storeSvc := st } ns rest with ⟨e2, w3, m⟩
        dsimp only
        have := ih (w := { w with storeSvc := st }) hcm hst hss
        rw [h2] at this
        exact this
    | statefulSetList objs =>
      rw [runObjList_ss]
      rcases h1 : createMany w.cacheSS w.storeSS ns objs with ⟨e, st, n⟩
      have hst : st.Nodup := by
        have := @createMany_nodup w.cacheSS w.storeSS ns objs hss
        rwa [h1] at this
      cases e with
      | some e => exact ⟨hcm, hsvc, hst⟩
      | none =>
        dsimp only
        rcases h2 : runObjLists { w with storeSS := st } ns rest with ⟨e2, w3, m⟩
        dsimp only
        have := ih (w := { w with storeSS := st }) hcm hsvc hst
        rw [h2] at this
        exact this

theorem runObjLists_none_mem (w : World) (ns : String) (ls : List ObjList)
    (h : (runObjLists w ns ls).1 = none) :
    (∀ o ∈ cmNames ls, (ns, o) ∈ w.cacheCM ∨ (ns, o) ∈ (runObjLists w ns ls).2.1.storeCM) ∧
    (∀ o ∈ svcNames ls, (ns, o) ∈ w.cacheSvc ∨ (ns, o) ∈ (runObjLists w ns ls).2.1.storeSvc) ∧
    (∀ o ∈ ssNames ls, (ns, o) ∈ w.cacheSS ∨ (ns, o) ∈ (runObjLists w ns ls).2.1.storeSS) := by
  induction ls generalizing w with
  | nil =>
    exact ⟨fun o ho => absurd ho (by simp [cmNames]),
      fun o ho => absurd ho (by simp [svcNames]),
      fun o ho => absurd ho (by simp [ssNames])⟩
  | cons l rest ih =>
    rw [runObjLists_cons] at h ⊢
    cases l with
    | configMapList objs =>
      rw [runObjList_cm] at h ⊢
      rcases h1 : createMany w.cacheCM w.storeCM ns objs with ⟨e, st, n⟩
      rw [h1] at h
      cases e with
      | some e => simp at h
      | none =>
        dsimp only at h ⊢
        have hrest := ih (w := { w with storeCM := st }) h
        refine ⟨?_, hrest.2.1, hrest.2.2⟩
        intro o ho
        rcases List.mem_append.mp (by simpa [cmNames] using ho) with hobj | htail
        · rcases @createMany_none_mem w.cacheCM w.storeCM ns objs o (by rw [h1]) hobj with hc | hs
          · exact Or.inl hc
          · right
            rw [h1] at hs
            exact (runObjLists_store_mono { w with storeCM := st } ns rest).1 _ hs
        · exact hrest.1 o htail
    | serviceList objs =>
      rw [runObjList_svc] at h ⊢
      rcases h1 : createMany w.cacheSvc w.storeSvc ns objs with ⟨e, st, n⟩
      rw [h1] at h
      cases e with
      | some e => simp at h
      | none =>
        dsimp only at h ⊢
        have hrest := ih (w := { w with storeSvc := st }) h
        refine ⟨hrest.1, ?_, hrest.2.2⟩
        intro o ho
        rcases List.mem_append.mp (by simpa [svcNames] using ho) with hobj | htail
        · rcases @createMany_none_mem w.cacheSvc w.storeSvc ns objs o (by rw [h1]) hobj with hc | hs
          · exact Or.inl hc
          · right
            rw [h1] at hs
            exact (runObjLists_store_mono { w with storeSvc := st } ns rest).2.1 _ hs
        · exact hrest.2.1 o htail
    | statefulSetList objs =>
      rw [runObjList_ss] at h ⊢
      rcases h1 : createMany w.cacheSS w.storeSS ns objs with ⟨e, st, n⟩
      rw [h1] at h
      cases e with
      | some e => simp at h
      | none =>
        dsimp only at h ⊢
        have hrest := ih (w := { w with storeSS := st }) h
        refine ⟨hrest.1, hrest.2.1, ?_⟩
        intro o ho
        rcases List.mem_append.mp (by simpa [ssNames] using ho) with hobj | htail
        · rcases @createMany_none_mem w.cacheSS w.storeSS ns objs o (by rw [h1]) hobj with hc | hs
          · exact Or.inl hc
          · right
            rw [h1] at hs
            exact (runObjLists_store_mono { w with storeSS := st } ns rest).2.2 _ hs
        · exact hrest.2.2 o htail

theorem runObjLists_all_cached (w : World) (ns : String) (ls : List ObjList)
    (hcm : ∀ o ∈ cmNames ls, (ns, o) ∈ w.cacheCM)
    (hsvc : ∀ o ∈ svcNames ls, (ns, o) ∈ w.cacheSvc)
    (hss : ∀ o ∈ ssNames ls, (ns, o) ∈ w.cacheSS) :
    runObjLists w ns ls = (none, w, 0) := by
  induction ls generalizing w with
  | nil => rfl
  | cons l rest ih =>
    rw [runObjLists_cons]
    cases l with
    | configMapList objs =>
      rw [runObjList_cm,
        createMany_all_cached (fun o ho => hcm o (by simp [cmNames, ho]))]
      dsimp only
      have hw : { w with storeCM := w.storeCM } = w := rfl
      rw [hw, ih w (fun o ho => hcm o (by simp [cmNames, ho]))
        (fun o ho => hsvc o (by simpa [svcNames] using ho))
        (fun o ho => hss o (by simpa [ssNames] using ho))]
      simp
    | serviceList objs =>
      rw [runObjList_svc,
        createMany_all_cached (fun o ho => hsvc o (by simp [svcNames, ho]))]
      dsimp only
      have hw : { w with storeSvc := w.storeSvc } = w := rfl
      rw [hw, ih w (fun o ho => hcm o (by simpa [cmNames] using ho))
        (fun o ho => hsvc o (by simp [svcNames, ho]))
        (fun o ho => hss o (by simpa [ssNames] using ho))]
      simp
    | statefulSetList objs =>
      rw [runObjList_ss,
        createMany_all_cached (fun o ho => hss o (by simp [ssNames, ho]))]
      dsimp only
      have hw : { w with storeSS := w.storeSS } = w := rfl
      rw [hw, ih w (fun o ho => hcm o (by simpa [cmNames] using ho))
        (fun o ho => hsvc o (by simpa [svcNames] using ho))
        (fun o ho => hss o (by simp [ssNames, ho]))]
      simp

theorem runObjLists_append_err (w : World) (ns : String) {l1 l2 : List ObjList}
    {e : KErr} (h : (runObjLists w ns l1).1 = some e) :
    runObjLists w ns (l1 ++ l2) = runObjLists w ns l1 := by
  induction l1 generalizing w with
  | nil => simp [runObjLists] at h
  | cons l rest ih =>
    rw [List.cons_append, runObjLists_cons, runObjLists_cons]
    rw [runObjLists_cons] at h
    rcases h1 : runObjList w ns l with ⟨e1, w2, n⟩
    rw [h1] at h
    cases e1 with
    | some e1 => rfl
    | none =>
      dsimp only at h ⊢
      rw [ih (w := w2) (by
        rcases h2 : runObjLists w2 ns rest with ⟨e2, w3, m⟩
        rw [h2] at h
        exact h)]

/-! ### Branch lemmas for `syncItem` -/

theorem syncItem_creation_ok (env : Env) (w : World) (key ns name : String)
    (chi : Chi) {w2 : World} {n : Nat}
    (hkey : splitMetaNamespaceKey key = some (ns, name))
    (hget : env.chopGet ns name = Lk.found chi)
    (hempty : chi.statusObjectPrefixes = [])
    (hrun : runObjLists w chi.nsp (env.gen chi).1 = (none, w2, n)) :
    syncItem env w key =
      (env.updateCall { chi with statusObjectPrefixes := (env.gen chi).2 }, w2,
        { noEffects with creates := n, statusUpdate := some (env.gen chi).2 }) := by
  simp only [syncItem, hkey, hget, hempty, List.isEmpty_nil, if_true,
    createControlledResources, updateChiStatus, hrun]

theorem syncItem_creation_err (env : Env) (w : World) (key ns name : String)
    (chi : Chi) {e : KErr} {w2 : World} {n : Nat}
    (hkey : splitMetaNamespaceKey key = some (ns, name))
    (hget : env.chopGet ns name = Lk.found chi)
    (hempty : chi.statusObjectPrefixes = [])
    (hrun : runObjLists w chi.nsp (env.gen chi).1 = (some e, w2, n)) :
    syncItem env w key = (some e, w2, { noEffects with creates := n }) := by
  simp only [syncItem, hkey, hget, hempty, List.isEmpty_nil, if_true,
    createControlledResources, updateChiStatus, hrun]

theorem syncItem_verify (env : Env) (w : World) (key ns name : String)
    (chi : Chi)
    (hkey : splitMetaNamespaceKey key = some (ns, name))
    (hget : env.chopGet ns name = Lk.found chi)
    (hne : chi.statusObjectPrefixes ≠ []) :
    syncItem env w key =
      (none, w,
        { creates := 0, statusUpdate := none,
          checkedHostnames := some (chi.name, chi.statusObjectPrefixes.map (fun pfx =>
            if (chi.nsp, env.ssNameOf pfx) ∈ w.cacheSS then
              env.podHostname chi.nsp pfx
            else "")),
          pushedHostnames :=
            if env.cvExist chi.name (chi.statusObjectPrefixes.map (fun pfx =>
                if (chi.nsp, env.ssNameOf pfx) ∈ w.cacheSS then
                  env.podHostname chi.nsp pfx
                else "")) then none
            else some (chi.name, chi.statusObjectPrefixes.map (fun pfx =>
              if (chi.nsp, env.ssNameOf pfx) ∈ w.cacheSS then
                env.podHostname chi.nsp pfx
              else "")) }) := by
  have hfalse : chi.statusObjectPrefixes.isEmpty = false := by
    rcases hl : chi.statusObjectPrefixes with _ | ⟨p, ps⟩
    · exact absurd hl hne
    · rfl
  simp only [syncItem, hkey, hget, hfalse, if_false, Bool.false_eq_true]

theorem count_eq_one_of_nodup_mem {α : Type} [BEq α] [LawfulBEq α] {l : List α}
    {a : α} (hnd : l.Nodup) (ha : a ∈ l) : l.count a = 1 := by
  induction l with
  | nil => cases ha
  | cons b t ih =>
    rcases List.nodup_cons.mp hnd with ⟨hb, ht⟩
    rcases List.mem_cons.mp ha with rfl | hat
    · rw [List.count_cons_self, List.count_eq_zero_of_not_mem hb]
    · have hne : a ≠ b := by
        intro he
        exact hb (he ▸ hat)
      rw [List.count_cons_of_ne hne t, ih ht hat]

/-! ### Claim theorems -/

/-- Claim C1 (code bug): a processing pass whose `syncItem` fails with a
transient store error performs only the deferred `Done`: no
`AddRateLimited` (and no `Forget`), so the key is dropped and never
re-enqueued with backoff — contradicting the re-enqueue contract and the
code's own "Item will be retried later" comment (chi.go:201). -/
theorem processNextWorkItem_drops_failed_item :
    processNextWorkItem (fun _ => some KErr.transient) (QItem.strKey "ns1/demo")
      = (some KErr.transient, [QOp.done]) ∧
    QOp.addRateLimited ∉
      (processNextWorkItem (fun _ => some KErr.transient) (QItem.strKey "ns1/demo")).2 ∧
    QOp.forget ∉
      (processNextWorkItem (fun _ => some KErr.transient) (QItem.strKey "ns1/demo")).2 := by
  decide

/-- Claim C2, counterexample: when the ConfigMap is absent from the watch
cache but already stored (a concurrent creator won the race), the Store
create fails with AlreadyExists and `createConfigMap` returns that error —
not the success (nil) the claim asserts. -/
theorem createConfigMap_already_exists_is_error :
    (createConfigMap raceWorld "ns1" "cm1").1 = some KErr.alreadyExists ∧
    ¬ (createConfigMap raceWorld "ns1" "cm1").1 = none := by
  decide

/-- Claim C2, amended: for a dependent object absent from the watch cache
whose Store create fails with "already exists", the create helper returns
that error (there is no IsAlreadyExists check), so the creation phase
aborts; success without a create call happens only on a cache hit. -/
theorem createHelper_propagates_create_error (w : World) (ns name : String) :
    ((ns, name) ∉ w.cacheCM → (ns, name) ∈ w.storeCM →
      (createConfigMap w ns name).1 = some KErr.alreadyExists) ∧
    ((ns, name) ∉ w.cacheSS → (ns, name) ∈ w.storeSS →
      (createStatefulSet w ns name).1 = some KErr.alreadyExists) := by
  constructor
  · intro h1 h2
    simp [createConfigMap, createOne, listerGet, storeCreate, h1, h2]
  · intro h1 h2
    simp [createStatefulSet, createOne, listerGet, storeCreate, h1, h2]

/-- Witness for the amended Claim C2, at the concrete race world. -/
theorem createHelper_propagates_create_error_witness :
    (createConfigMap raceWorld "ns1" "cm1").1 = some KErr.alreadyExists ∧
    (createStatefulSet raceWorld "ns1" "ss1").1 = some KErr.alreadyExists :=
  ⟨(createHelper_propagates_create_error raceWorld "ns1" "cm1").1
      (by decide) (by decide),
    (createHelper_propagates_create_error raceWorld "ns1" "ss1").2
      (by decide) (by decide)⟩

/-- Claim C3: a create helper whose cache lookup finds the object returns
success with zero Store create calls and an unchanged world; consequently,
when the cache is a snapshot of the store (cache ⊆ store, stores without
duplicates) and a first creation pass succeeds, every generated dependent
name is stored exactly once afterwards, and a second pass over a cache
refreshed with the first pass's writes succeeds with zero create calls
and no store change. -/
theorem idempotent_create_two_pass (w : World) (ns : String) (ls : List ObjList)
    (hsubCM : ∀ x ∈ w.cacheCM, x ∈ w.storeCM)
    (hsubSvc : ∀ x ∈ w.cacheSvc, x ∈ w.storeSvc)
    (hsubSS : ∀ x ∈ w.cacheSS, x ∈ w.storeSS)
    (hndCM : w.storeCM.Nodup) (hndSvc : w.storeSvc.Nodup) (hndSS : w.storeSS.Nodup)
    (h1 : (runObjLists w ns ls).1 = none) :
    (∀ nm, (ns, nm) ∈ w.cacheCM → createConfigMap w ns nm = (none, w, 0)) ∧
    (∀ nm, (ns, nm) ∈ w.cacheSvc → createService w ns nm = (none, w, 0)) ∧
    (∀ nm, (ns, nm) ∈ w.cacheSS → createStatefulSet w ns nm = (none, w, 0)) ∧
    (∀ o ∈ cmNames ls, ((runObjLists w ns ls).2.1).storeCM.count (ns, o) = 1) ∧
    (∀ o ∈ svcNames ls, ((runObjLists w ns ls).2.1).storeSvc.count (ns, o) = 1) ∧
    (∀ o ∈ ssNames ls, ((runObjLists w ns ls).2.1).storeSS.count (ns, o) = 1) ∧
    runObjLists (refreshCaches (runObjLists w ns ls).2.1) ns ls
      = (none, refreshCaches (runObjLists w ns ls).2.1, 0) := by
  have hcov := runObjLists_none_mem w ns ls h1
  have hmono := runObjLists_store_mono w ns ls
  have hnd := runObjLists_nodup w ns ls hndCM hndSvc hndSS
  have hmemCM : ∀ o ∈ cmNames ls, (ns, o) ∈ (runObjLists w ns ls).2.1.storeCM := by
    intro o ho
    rcases hcov.1 o ho with hc | hs
    · exact hmono.1 _ (hsubCM _ hc)
    · exact hs
  have hmemSvc : ∀ o ∈ svcNames ls, (ns, o) ∈ (runObjLists w ns ls).2.1.storeSvc := by
    intro o ho
    rcases hcov.2.1 o ho with hc | hs
    · exact hmono.2.1 _ (hsubSvc _ hc)
    · exact hs
  have hmemSS : ∀ o ∈ ssNames ls, (ns, o) ∈ (runObjLists w ns ls).2.1.storeSS := by
    intro o ho
    rcases hcov.2.2 o ho with hc | hs
    · exact hmono.2.2 _ (hsubSS _ hc)
    · exact hs
  refine ⟨?_, ?_, ?_, ?_, ?_, ?_, ?_⟩
  · intro nm hm
    simp [createConfigMap, createOne, listerGet, hm]
  · intro nm hm
    simp [createService, createOne, listerGet, hm]
  · intro nm hm
    simp [createStatefulSet, createOne, listerGet, hm]
  · intro o ho
    exact count_eq_one_of_nodup_mem hnd.1 (hmemCM o ho)
  · intro o ho
    exact count_eq_one_of_nodup_mem hnd.2.1 (hmemSvc o ho)
  · intro o ho
    exact count_eq_one_of_nodup_mem hnd.2.2 (hmemSS o ho)
  · exact runObjLists_all_cached _ ns ls hmemCM hmemSvc hmemSS

/-- Witness for Claim C3: concrete two-pass run from the empty world. -/
theorem idempotent_create_two_pass_witness :
    (runObjLists emptyWorld "ns1" lsExample).1 = none ∧
    runObjLists (refreshCaches (runObjLists emptyWorld "ns1" lsExample).2.1)
        "ns1" lsExample
      = (none, refreshCaches (runObjLists emptyWorld "ns1" lsExample).2.1, 0) :=
  ⟨by decide,
    (idempotent_create_two_pass emptyWorld "ns1" lsExample
      (by decide) (by decide) (by decide) (by decide) (by decide) (by decide)
      (by decide)).2.2.2.2.2.2⟩

/-- Claim C4: when the creation phase finishes without error, `syncItem`
invokes the status update with exactly the prefix list returned by the
manifest generator for the current spec (same list, hence same length and
order). -/
theorem status_update_matches_generated_prefixes (env : Env) (w : World)
    (key ns name : String) (chi : Chi)
    (hkey : splitMetaNamespaceKey key = some (ns, name))
    (hget : env.chopGet ns name = Lk.found chi)
    (hempty : chi.statusObjectPrefixes = [])
    (hok : (runObjLists w chi.nsp (env.gen chi).1).1 = none) :
    ((syncItem env w key).2.2).statusUpdate = some (env.gen chi).2 := by
  rcases hrun : runObjLists w chi.nsp (env.gen chi).1 with ⟨e, w2, n⟩
  rw [hrun] at hok
  cases e with
  | some e => simp at hok
  | none =>
    rw [syncItem_creation_ok env w key ns name chi hkey hget hempty hrun]

/-- Witness for Claim C4: the concrete creation run writes both generated
prefixes to status. -/
theorem status_update_matches_generated_prefixes_witness :
    ((syncItem envExample emptyWorld "ns1/demo").2.2).statusUpdate
      = some ["demo-0", "demo-1"] :=
  status_update_matches_generated_prefixes envExample emptyWorld "ns1/demo"
    "ns1" "demo" chiEmptyStatus (by decide) rfl rfl (by decide)

/-- Claim C5: a failing per-object create aborts the phase at once — the
objects after the failure point are never processed (`createMany` and
`runObjLists` on the extended list coincide with the run up to the
failure) — the error is propagated as `syncItem`'s result, and the status
updater is not invoked. -/
theorem create_error_aborts_phase (env : Env) (w : World) (key ns name : String)
    (chi : Chi) (e : KErr)
    (hkey : splitMetaNamespaceKey key = some (ns, name))
    (hget : env.chopGet ns name = Lk.found chi)
    (hempty : chi.statusObjectPrefixes = [])
    (herr : (runObjLists w chi.nsp (env.gen chi).1).1 = some e) :
    (syncItem env w key).1 = some e ∧
    ((syncItem env w key).2.2).statusUpdate = none ∧
    (∀ (w0 : World) (ns0 : String) (l1 l2 : List ObjList) (e0 : KErr),
      (runObjLists w0 ns0 l1).1 = some e0 →
      runObjLists w0 ns0 (l1 ++ l2) = runObjLists w0 ns0 l1) ∧
    (∀ (cache store : List (String × String)) (ns0 : String)
        (xs ys : List String) (e0 : KErr),
      (createMany cache store ns0 xs).1 = some e0 →
      createMany cache store ns0 (xs ++ ys) = createMany cache store ns0 xs) := by
  rcases hrun : runObjLists w chi.nsp (env.gen chi).1 with ⟨e1, w2, n⟩
  rw [hrun] at herr
  cases e1 with
  | none => simp at herr
  | some e1 =>
    have he : e1 = e := by simpa using herr
    subst he
    rw [syncItem_creation_err env w key ns name chi hkey hget hempty hrun]
    exact ⟨rfl, rfl,
      fun w0 ns0 l1 l2 e0 h => runObjLists_append_err w0 ns0 h,
      fun cache store ns0 xs ys e0 h => createMany_append_err h⟩

/-- Witness for Claim C5: in the race world the first ConfigMap create
fails with AlreadyExists; the sync returns it and no status is written. -/
theorem create_error_aborts_phase_witness :
    (syncItem envExample raceWorld "ns1/demo").1 = some KErr.alreadyExists ∧
    ((syncItem envExample raceWorld "ns1/demo").2.2).statusUpdate = none :=
  ⟨(create_error_aborts_phase envExample raceWorld "ns1/demo" "ns1" "demo"
      chiEmptyStatus KErr.alreadyExists (by decide) rfl rfl (by decide)).1,
    (create_error_aborts_phase envExample raceWorld "ns1/demo" "ns1" "demo"
      chiEmptyStatus KErr.alreadyExists (by decide) rfl rfl (by decide)).2.1⟩

/-- Claim C6: with a non-empty `status.objectPrefixes` the sync runs the
verification phase: it returns success, leaves the world (hence the
Store) untouched, issues zero create calls and no status update —
regardless of which recorded StatefulSets are present in the cache. -/
theorem verification_phase_no_creates (env : Env) (w : World) (key ns name : String)
    (chi : Chi)
    (hkey : splitMetaNamespaceKey key = some (ns, name))
    (hget : env.chopGet ns name = Lk.found chi)
    (hne : chi.statusObjectPrefixes ≠ []) :
    (syncItem env w key).1 = none ∧
    (syncItem env w key).2.1 = w ∧
    ((syncItem env w key).2.2).creates = 0 ∧
    ((syncItem env w key).2.2).statusUpdate = none := by
  rw [syncItem_verify env w key ns name chi hkey hget hne]
  exact ⟨rfl, rfl, rfl, rfl⟩

/-- Witness for Claim C6: verification over a world where the recorded
StatefulSet "demo-1-ss" is missing still succeeds with zero creates. -/
theorem verification_phase_no_creates_witness :
    (syncItem envVerify wVerify "ns1/demo").1 = none ∧
    (syncItem envVerify wVerify "ns1/demo").2.1 = wVerify ∧
    ((syncItem envVerify wVerify "ns1/demo").2.2).creates = 0 ∧
    ((syncItem envVerify wVerify "ns1/demo").2.2).statusUpdate = none :=
  verification_phase_no_creates envVerify wVerify "ns1/demo" "ns1" "demo"
    chiWithStatus (by decide) rfl (by decide)

/-- Claim C7: for a well-formed key, a NotFound CHI lookup makes
`syncItem` succeed with no effects, and the processing pass ends with
Forget (then the deferred Done) and performs no re-enqueue; any other
lookup error is returned by `syncItem` (making the pass report a
failure). -/
theorem not_found_benign_success (env : Env) (w : World) (key ns name : String)
    (e : KErr)
    (hkey : splitMetaNamespaceKey key = some (ns, name)) :
    (env.chopGet ns name = Lk.notFound →
      syncItem env w key = (none, w, noEffects) ∧
      processNextWorkItem (fun k => (syncItem env w k).1) (QItem.strKey key)
        = (none, [QOp.forget, QOp.done]) ∧
      QOp.addRateLimited ∉
        (processNextWorkItem (fun k => (syncItem env w k).1) (QItem.strKey key)).2) ∧
    (env.chopGet ns name = Lk.failed e → (syncItem env w key).1 = some e) := by
  constructor
  · intro hget
    have hs : syncItem env w key = (none, w, noEffects) := by
      simp only [syncItem, hkey, hget]
    refine ⟨hs, ?_, ?_⟩
    · simp [processNextWorkItem, hs]
    · simp [processNextWorkItem, hs]
  · intro hget
    simp only [syncItem, hkey, hget]

/-- Witness for Claim C7: the NotFound environment at a concrete key. -/
theorem not_found_benign_success_witness :
    syncItem envNotFound emptyWorld "ns1/demo" = (none, emptyWorld, noEffects) ∧
    processNextWorkItem (fun k => (syncItem envNotFound emptyWorld k).1)
        (QItem.strKey "ns1/demo")
      = (none, [QOp.forget, QOp.done]) ∧
    QOp.addRateLimited ∉
      (processNextWorkItem (fun k => (syncItem envNotFound emptyWorld k).1)
        (QItem.strKey "ns1/demo")).2 :=
  (not_found_benign_success envNotFound emptyWorld "ns1/demo" "ns1" "demo"
    KErr.transient (by decide)).1 rfl

/-- Claim C8: a dependent-object event whose payload has no controller
owner reference, or one of a kind other than the CHI kind, enqueues
nothing — both for a live object and for a tombstone wrapping it. -/
theorem orphan_event_not_enqueued (chopGet : String → String → Lk Chi)
    (o : MetaObject)
    (h : getControllerOf o = none ∨
      ∃ r, getControllerOf o = some r ∧
        r.kind ≠ ClickHouseInstallationCRDResourceKind) :
    handleObject chopGet (EventObj.metaObj o) = [] ∧
    handleObject chopGet (EventObj.tombstone (some o)) = [] := by
  have hto : handleObject chopGet (EventObj.tombstone (some o))
      = handleObject chopGet (EventObj.metaObj o) := rfl
  have hmain : handleObject chopGet (EventObj.metaObj o) = [] := by
    rcases h with hnone | ⟨r, hr, hk⟩
    · simp [handleObject, hnone]
    · simp [handleObject, hr, hk]
  exact ⟨hmain, hto.trans hmain⟩

/-- Witness for Claim C8: a non-controller reference and a foreign-kind
controller reference both enqueue nothing. -/
theorem orphan_event_not_enqueued_witness :
    handleObject (fun _ _ => Lk.found chiEmptyStatus)
      (EventObj.metaObj objNoOwner) = [] ∧
    handleObject (fun _ _ => Lk.found chiEmptyStatus)
      (EventObj.tombstone (some objWrongKind)) = [] :=
  ⟨(orphan_event_not_enqueued (fun _ _ => Lk.found chiEmptyStatus) objNoOwner
      (Or.inl (by decide))).1,
    (orphan_event_not_enqueued (fun _ _ => Lk.found chiEmptyStatus) objWrongKind
      (Or.inr ⟨⟨"Deployment", "demo", true⟩, by decide, by decide⟩)).2⟩

/-- Claim C9: a tombstone-wrapped delete is routed identically to a live
delete, and with a controller owner reference of the CHI kind whose owner
resolves in the cache it enqueues exactly the owner's key. -/
theorem tombstone_routes_like_delete (chopGet : String → String → Lk Chi)
    (o : MetaObject) (r : OwnerReference) (chi : Chi)
    (hr : getControllerOf o = some r)
    (hkind : r.kind = ClickHouseInstallationCRDResourceKind)
    (hchi : chopGet o.nsp r.name = Lk.found chi) :
    handleObject chopGet (EventObj.tombstone (some o))
      = handleObject chopGet (EventObj.metaObj o) ∧
    handleObject chopGet (EventObj.tombstone (some o))
      = [metaNamespaceKeyFunc chi.nsp chi.name] := by
  refine ⟨rfl, ?_⟩
  simp [handleObject, hr, hkind, hchi, enqueueObject]

/-- Witness for Claim C9: the owned StatefulSet's tombstone enqueues the
owning CHI's key. -/
theorem tombstone_routes_like_delete_witness :
    handleObject (fun _ _ => Lk.found chiEmptyStatus)
        (EventObj.tombstone (some objOwned))
      = handleObject (fun _ _ => Lk.found chiEmptyStatus)
        (EventObj.metaObj objOwned) ∧
    handleObject (fun _ _ => Lk.found chiEmptyStatus)
        (EventObj.tombstone (some objOwned))
      = ["ns1/demo"] :=
  tombstone_routes_like_delete (fun _ _ => Lk.found chiEmptyStatus) objOwned
    ⟨"ClickHouseInstallation", "demo", true⟩ chiEmptyStatus
    (by decide) (by decide) rfl

/-- Claim C10: the verification phase hands the metrics exporter a
hostname list with exactly one entry per recorded prefix, in order; a
prefix whose StatefulSet lookup fails contributes the empty string at its
position; the same list is passed to ControlledValuesExist and, when that
returns false, to UpdateControlledState. -/
theorem verification_hostnames_shape (env : Env) (w : World) (key ns name : String)
    (chi : Chi)
    (hkey : splitMetaNamespaceKey key = some (ns, name))
    (hget : env.chopGet ns name = Lk.found chi)
    (hne : chi.statusObjectPrefixes ≠ []) :
    ((syncItem env w key).2.2).checkedHostnames
      = some (chi.name, chi.statusObjectPrefixes.map (fun pfx =>
          if (chi.nsp, env.ssNameOf pfx) ∈ w.cacheSS then
            env.podHostname chi.nsp pfx else "")) ∧
    (chi.statusObjectPrefixes.map (fun pfx =>
        if (chi.nsp, env.ssNameOf pfx) ∈ w.cacheSS then
          env.podHostname chi.nsp pfx else "")).length
      = chi.statusObjectPrefixes.length ∧
    (∀ i (hi : i < chi.statusObjectPrefixes.length),
      (chi.nsp, env.ssNameOf (chi.statusObjectPrefixes.get ⟨i, hi⟩)) ∉ w.cacheSS →
      (chi.statusObjectPrefixes.map (fun pfx =>
        if (chi.nsp, env.ssNameOf pfx) ∈ w.cacheSS then
          env.podHostname chi.nsp pfx else "")).get
        ⟨i, by simpa using hi⟩ = "") ∧
    ((syncItem env w key).2.2).pushedHostnames
      = (if env.cvExist chi.name (chi.statusObjectPrefixes.map (fun pfx =>
            if (chi.nsp, env.ssNameOf pfx) ∈ w.cacheSS then
              env.podHostname chi.nsp pfx else "")) then none
          else some (chi.name, chi.statusObjectPrefixes.map (fun pfx =>
            if (chi.nsp, env.ssNameOf pfx) ∈ w.cacheSS then
              env.podHostname chi.nsp pfx else ""))) := by
  rw [syncItem_verify env w key ns name chi hkey hget hne]
  refine ⟨rfl, by simp, ?_, rfl⟩
  intro i hi hmem
  simp only [List.get_eq_getElem] at hmem ⊢
  simp [List.getElem_map, hmem]

/-- Witness for Claim C10: with one present and one missing StatefulSet
the exporter receives two entries, the second empty, and the list is
pushed since ControlledValuesExist is false. -/
theorem verification_hostnames_shape_witness :
    ((syncItem envVerify wVerify "ns1/demo").2.2).checkedHostnames
      = some ("demo", ["demo-0.ns1", ""]) ∧
    ((syncItem envVerify wVerify "ns1/demo").2.2).pushedHostnames
      = some ("demo", ["demo-0.ns1", ""]) :=
  ⟨(verification_hostnames_shape envVerify wVerify "ns1/demo" "ns1" "demo"
      chiWithStatus (by decide) rfl (by decide)).1,
    (verification_hostnames_shape envVerify wVerify "ns1/demo" "ns1" "demo"
      chiWithStatus (by decide) rfl (by decide)).2.2.2⟩
